import Mathlib

/-!
Verification development for the prospect-research tool
(`src/app/api/research/route.ts`).

The network is modelled by an oracle `World : String → Option FetchOutcome`:
`w url = none` models a fetch that throws (timeout / network failure), and
`w url = some res` models a completed response carrying its HTTP success
flag (`ok`, i.e. 2xx), final post-redirect URL, HTML body and, where the
caller reads JSON, the parsed JSON shape.  HTML documents are modelled as
a raw string (used by the keyword fingerprinting, which operates on the
raw text) together with a DOM tree (used by the cheerio selector queries).
JavaScript's string primitives (`trim`, `startsWith`, `toLowerCase`,
`split`, WHATWG `URL`) are modelled by explicit executable functions over
`List Char` below.
-/

/-- ASCII upper-casing of one character, modelling JS `toUpperCase` on the
ASCII range (hostnames are ASCII).  Non-letters map to themselves. -/
def upChar (c : Char) : Char :=
  if 97 ≤ c.toNat ∧ c.toNat ≤ 122 then Char.ofNat (c.toNat - 32) else c

/-- ASCII lower-casing of one character, modelling JS `toLowerCase` /
WHATWG host lower-casing on the ASCII range. -/
def downChar (c : Char) : Char :=
  if 65 ≤ c.toNat ∧ c.toNat ≤ 90 then Char.ofNat (c.toNat + 32) else c

/-- Lower-case a whole string (model of JS `String.prototype.toLowerCase`). -/
def lowerStr (s : String) : String := ⟨s.data.map downChar⟩

/-- Whitespace recognised by JS `String.prototype.trim` (ASCII fragment). -/
def isWsChar (c : Char) : Bool := c == ' ' || c == '\t' || c == '\n' || c == '\r'

/-- Model of JS `String.prototype.trim`. -/
def jsTrim (s : String) : String :=
  ⟨((s.data.dropWhile isWsChar).reverse.dropWhile isWsChar).reverse⟩

/-- Prefix test on character lists (model of JS `startsWith`). -/
def isPrefixL : List Char → List Char → Bool
  | [], _ => true
  | _ :: _, [] => false
  | c :: cs, d :: ds => c == d && isPrefixL cs ds

/-- Model of JS `String.prototype.startsWith`. -/
def startsWithS (s pat : String) : Bool := isPrefixL pat.data s.data

/-- Substring test on character lists (model of JS `includes` / literal
regular-expression search). -/
def containsSubL (pat : List Char) : List Char → Bool
  | [] => pat.isEmpty
  | c :: cs => isPrefixL pat (c :: cs) || containsSubL pat cs

/-- Case-insensitive prefix test: `pat` is given lower-case and the
scanned text is lowered character-wise. -/
def ciPrefix : List Char → List Char → Bool
  | [], _ => true
  | _ :: _, [] => false
  | c :: cs, d :: ds => downChar d == c && ciPrefix cs ds

/-- Case-insensitive substring test (model of testing a case-insensitive
literal regular expression such as `/boards\.greenhouse\.io/i`). -/
def containsCIL (pat : List Char) : List Char → Bool
  | [] => pat.isEmpty
  | c :: cs => ciPrefix pat (c :: cs) || containsCIL pat cs

/-- Split a character list at every occurrence of a separator character
(model of JS `String.prototype.split` with a one-character separator). -/
def splitChar (sep : Char) : List Char → List (List Char)
  | [] => [[]]
  | c :: cs =>
    if c == sep then [] :: splitChar sep cs
    else
      match splitChar sep cs with
      | [] => [[c]]
      | h :: t => (c :: h) :: t

/-- Break a list around the first occurrence of the pattern `pat`,
returning the part before it and the part after it. -/
def breakOnSub (pat : List Char) : List Char → Option (List Char × List Char)
  | [] => if pat.isEmpty then some ([], []) else none
  | c :: cs =>
    if isPrefixL pat (c :: cs) then some ([], (c :: cs).drop pat.length)
    else
      match breakOnSub pat cs with
      | some (b, a) => some (c :: b, a)
      | none => none

/-- Scan for the first (case-insensitive) occurrence of `pat` that is
followed by a non-empty run of characters other than `/`, `?`, `#`, and
return that run.  This models capturing with a regular expression of the
shape `pat([^/?#]+)` with the `i` flag: the regex engine scans positions
left to right and only succeeds where the capture group is non-empty. -/
def capAfter (pat : List Char) : List Char → Option (List Char)
  | [] => none
  | c :: cs =>
    if ciPrefix pat (c :: cs) then
      let cap := ((c :: cs).drop pat.length).takeWhile
        (fun ch => !(ch == '/') && !(ch == '?') && !(ch == '#'))
      if cap.isEmpty then capAfter pat cs else some cap
    else capAfter pat cs

/-- The scheme/host fragment of a parsed URL.  The route only ever reads
`protocol` and `hostname` of parsed URLs, so the model keeps just these,
both already normalised (lower-cased) as the WHATWG parser does. -/
structure UrlParts where
  scheme : String
  host : String
  deriving Repr, DecidableEq

/-- Characters that make a hostname invalid for the WHATWG parser
(fragment sufficient for this development; notably the space, which makes
`new URL("bad url")`-style inputs throw). -/
def hostForbidden (c : Char) : Bool :=
  c == ' ' || c == '@' || c == '[' || c == ']' || c == '\\' ||
  c == '<' || c == '>' || c == '\t' || c == '\n' || c == '\r'

/-- Model of `new URL(s)` restricted to what the route observes: it
succeeds when `s` has an alphabetic scheme followed by `://`, a non-empty
well-formed host (optionally followed by a numeric port) and anything
after; it yields the lower-cased scheme and hostname.  Strings with no
`://` (e.g. `"bad url"`, `"stripe.com"`) fail to parse, as the WHATWG
parser throws on them (no scheme).  `parseAfterScheme` handles what
follows the scheme: authority up to `/`, `?` or `#`, split into host and
an optional numeric port. -/
def parseAfterScheme (sch rest : List Char) : Option UrlParts :=
  if sch ≠ [] ∧ sch.all (fun c => c.isAlpha) then
    let auth := rest.takeWhile (fun c => !(c == '/') && !(c == '?') && !(c == '#'))
    let hostPart := auth.takeWhile (fun c => !(c == ':'))
    let portPart := auth.drop (hostPart.length + 1)
    if hostPart ≠ [] ∧ hostPart.all (fun c => !hostForbidden c) ∧
        portPart.all (fun c => c.isDigit) then
      some ⟨⟨sch.map downChar⟩, ⟨hostPart.map downChar⟩⟩
    else none
  else none

def parseUrl (s : String) : Option UrlParts :=
  match breakOnSub [':', '/', '/'] s.data with
  | none => none
  | some (sch, rest) => parseAfterScheme sch rest

/-- `hostname.replace(/^www\./, "")` on a character list. -/
def stripWwwL (l : List Char) : List Char :=
  if isPrefixL ['w', 'w', 'w', '.'] l then l.drop 4 else l

/-- `hostname.replace(/^www\./, "")`. -/
def stripWww (s : String) : String := ⟨stripWwwL s.data⟩

/-- JS `parts[0].charAt(0).toUpperCase() + parts[0].slice(1)`:
upper-case the first character, keep the rest. -/
def capitalizeJS (s : String) : String :=
  match s.data with
  | [] => ""
  | c :: cs => ⟨upChar c :: cs⟩

/-- The hostname-to-company-name computation inside `extractCompanyName`:
strip a leading `www.`, take the first DNS label (`split(".")[0]` is the
prefix before the first dot) and capitalize it. -/
def companyFromHostname (hostname : String) : String :=
  capitalizeJS ⟨(stripWwwL hostname.data).takeWhile (fun c => !(c == '.'))⟩

/-- `extractCompanyName` (route.ts lines 78-86): parse the URL; on
success capitalize the first label of the `www.`-stripped hostname, on a
parse failure return `"Unknown"`. -/
def extractCompanyName (url : String) : String :=
  match parseUrl url with
  | some u => companyFromHostname u.host
  | none => "Unknown"

/-- A DOM element: tag name (lower-case), attribute list, text content
(the string cheerio's `$(el).text()` yields for the element) and child
elements.  A parsed HTML document is a list of root elements; queries
traverse it in document (preorder) order, as cheerio does. -/
inductive Node where
  | mk (tag : String) (attrs : List (String × String)) (txt : String)
       (children : List Node)
  deriving Repr

def Node.tag : Node → String
  | .mk t _ _ _ => t

def Node.attrs : Node → List (String × String)
  | .mk _ a _ _ => a

def Node.txt : Node → String
  | .mk _ _ x _ => x

def Node.attr (n : Node) (a : String) : Option String := n.attrs.lookup a

/-- `$(el).attr(a)` followed by JS truthiness: an absent attribute is
`undefined` and an empty-string attribute is falsy. -/
def Node.truthyAttr (n : Node) (a : String) : Option String :=
  match n.attr a with
  | some v => if v = "" then none else some v
  | none => none

def classOf (n : Node) : String := (n.attr "class").getD ""

/-- Simple CSS selectors, covering exactly the forms the route uses. -/
inductive SSel where
  | tagIs (t : String)
  | classWord (c : String)
  | classSub (s : String)
  | attrPresent (a : String)
  | attrEq (a v : String)
  | attrSub (a v : String)
  | tagClassSub (t s : String)
  | tagAttrPresent (t a : String)

/-- Does an element match a simple selector? -/
def matchesS (n : Node) : SSel → Bool
  | .tagIs t => n.tag == t
  | .classWord c => (splitChar ' ' (classOf n).data).any (fun w' => w' == c.data)
  | .classSub s => (n.attr "class").isSome && containsSubL s.data (classOf n).data
  | .attrPresent a => (n.attr a).isSome
  | .attrEq a v => n.attr a == some v
  | .attrSub a v =>
    match n.attr a with
    | some x => containsSubL v.data x.data
    | none => false
  | .tagClassSub t s =>
    n.tag == t && ((n.attr "class").isSome && containsSubL s.data (classOf n).data)
  | .tagAttrPresent t a => n.tag == t && (n.attr a).isSome

/-- A selector of a comma-group: either simple, or a descendant pair
(`.js-openings li`). -/
inductive Sel where
  | simple (s : SSel)
  | inside (anc : SSel) (child : SSel)

/-- Does an element (with the given ancestor chain) match a selector? -/
def matchesSel (anc : List Node) (n : Node) : Sel → Bool
  | .simple s => matchesS n s
  | .inside a s => matchesS n s && anc.any (fun m => matchesS m a)

mutual
/-- Count the elements of a subtree satisfying `p` (given ancestors). -/
def countNode (p : List Node → Node → Bool) (anc : List Node) : Node → Nat
  | .mk t a x cs =>
    (if p anc (.mk t a x cs) then 1 else 0) + countKids p (Node.mk t a x cs :: anc) cs

/-- Count the elements of a forest satisfying `p` (given ancestors). -/
def countKids (p : List Node → Node → Bool) (anc : List Node) : List Node → Nat
  | [] => 0
  | n :: ns => countNode p anc n + countKids p anc ns
end

/-- `$(sel).length` for a comma-separated selector group: each document
element is counted once if it matches any selector of the group. -/
def countSel (sels : List Sel) (dom : List Node) : Nat :=
  countKids (fun anc n => sels.any (matchesSel anc n)) [] dom

mutual
/-- Collect `f`-values over a subtree in document (preorder) order. -/
def collectNode {α : Type} (f : Node → Option α) : Node → List α
  | .mk t a x cs =>
    (match f (.mk t a x cs) with
     | some v => [v]
     | none => []) ++ collectKids f cs

/-- Collect `f`-values over a forest in document (preorder) order. -/
def collectKids {α : Type} (f : Node → Option α) : List Node → List α
  | [] => []
  | n :: ns => collectNode f n ++ collectKids f ns
end

/-- `$("a[href]")` with the pair (`href` value, element text). -/
def anchorInfo (n : Node) : Option (String × String) :=
  if n.tag == "a" && (n.attr "href").isSome then
    some ((n.attr "href").getD "", n.txt)
  else none

def anchors (dom : List Node) : List (String × String) := collectKids anchorInfo dom

/-- An HTML page: the raw markup string (fingerprinting searches it
textually) and its parsed DOM (selector queries walk it). -/
structure Html where
  raw : String
  dom : List Node

/-- The `{ url: fullUrl, html: "" }` value built when a tier-A fetch
throws. -/
def Html.empty : Html := ⟨"", []⟩

/-- The JSON shapes `countJobsViaApi` distinguishes: an object whose
`jobs` field is an array (of some length; an empty array is still truthy
in JS), a bare array, or anything else. -/
inductive Jsonish where
  | jobsArr (n : Nat)
  | bareArr (n : Nat)
  | other

/-- A completed HTTP response: success flag (`res.ok`, 2xx), the final
post-redirect URL (`res.url`), the body as HTML, and the body as JSON
when it parses as one of the recognised shapes. -/
structure FetchOutcome where
  ok : Bool
  url : String
  body : Html
  json : Option Jsonish

/-- The network oracle: `none` models `fetchWithTimeout` throwing. -/
def World : Type := String → Option FetchOutcome

/-- A located careers page (route.ts `{ url, html }`). -/
structure Page where
  url : String
  html : Html

/-- `ATS_PATTERNS` table entry: vendor name and its URL patterns.  Each
source pattern is a case-insensitive literal (dots escaped), so each is
modelled by the literal substring it matches. -/
structure AtsEntry where
  name : String
  patterns : List String

/-- The static `ATS_PATTERNS` table (route.ts lines 13-40), in order. -/
def ATS_PATTERNS : List AtsEntry :=
  [ ⟨"Greenhouse", ["boards.greenhouse.io", "job-boards.greenhouse.io", "greenhouse.io"]⟩,
    ⟨"Lever", ["jobs.lever.co", "lever.co"]⟩,
    ⟨"Workday", ["myworkdayjobs.com", "myworkdaysite.com", "workday.com"]⟩,
    ⟨"Ashby", ["jobs.ashbyhq.com", "ashbyhq.com"]⟩,
    ⟨"SmartRecruiters", ["jobs.smartrecruiters.com", "smartrecruiters.com"]⟩,
    ⟨"BambooHR", ["bamboohr.com"]⟩,
    ⟨"Teamtailor", ["teamtailor.com"]⟩,
    ⟨"iCIMS", ["icims.com"]⟩,
    ⟨"Recruitee", ["recruitee.com"]⟩,
    ⟨"Pinpoint", ["pinpointhq.com"]⟩,
    ⟨"Workable", ["apply.workable.com", "workable.com"]⟩,
    ⟨"JazzHR", ["applytojob.com", "jazzhr.com"]⟩,
    ⟨"Breezy HR", ["breezy.hr"]⟩ ]

/-- The fixed candidate path list `CAREERS_PATHS` (route.ts lines 42-53). -/
def CAREERS_PATHS : List String :=
  ["/careers", "/jobs", "/join", "/join-us", "/work-with-us",
   "/open-positions", "/opportunities", "/hiring", "/career", "/vacancies"]

/-- Does some pattern of the entry match the URL (inner loop of
`detectAtsFromUrl`)? -/
def atsEntryMatches (url : String) (e : AtsEntry) : Bool :=
  e.patterns.any (fun p => containsCIL p.data url.data)

/-- The table scan of `detectAtsFromUrl`, entry by entry. -/
def detectAtsGo (url : String) : List AtsEntry → Option String
  | [] => none
  | e :: rest => if atsEntryMatches url e then some e.name else detectAtsGo url rest

/-- `detectAtsFromUrl` (route.ts lines 88-97): first table entry one of
whose patterns matches, else `null`. -/
def detectAtsFromUrl (url : String) : Option String := detectAtsGo url ATS_PATTERNS

/-- The `checks` table of `detectAtsFromHtml` (route.ts lines 101-115). -/
def HTML_KEYWORD_CHECKS : List (String × String) :=
  [("greenhouse", "Greenhouse"), ("lever.co", "Lever"), ("workday", "Workday"),
   ("ashbyhq", "Ashby"), ("smartrecruiters", "SmartRecruiters"),
   ("bamboohr", "BambooHR"), ("teamtailor", "Teamtailor"), ("icims", "iCIMS"),
   ("recruitee", "Recruitee"), ("pinpointhq", "Pinpoint"),
   ("workable", "Workable"), ("jazz", "JazzHR"), ("breezy.hr", "Breezy HR")]

/-- Keyword scan of `detectAtsFromHtml` over the lower-cased HTML. -/
def detectAtsHtmlGo (lh : List Char) : List (String × String) → Option String
  | [] => none
  | (kw, name) :: rest =>
    if containsSubL kw.data lh then some name else detectAtsHtmlGo lh rest

/-- `detectAtsFromHtml` (route.ts lines 99-122). -/
def detectAtsFromHtml (html : String) : Option String :=
  detectAtsHtmlGo (html.data.map downChar) HTML_KEYWORD_CHECKS

/-- `new URL(path, baseUrl).href` for the constant root-relative careers
paths: scheme and host of the base followed by the path. -/
def mkUrl (pu : UrlParts) (p : String) : String :=
  pu.scheme ++ "://" ++ pu.host ++ p

/-- Model of `new URL(link, baseUrl).href` for the mined links, where
`baseUrl` is scheme+host: an absolute http(s)-style URL is kept as
written; a link that merely looks absolute but does not parse fails (the
constructor throws); otherwise protocol-relative, root-relative and bare
relative references resolve against the base. -/
def resolveUrl (pu : UrlParts) (link : String) : Option String :=
  if (parseUrl link).isSome then some link
  else if startsWithS link "http://" || startsWithS link "https://" then none
  else if startsWithS link "//" then some (pu.scheme ++ ":" ++ link)
  else if link = "" then some (pu.scheme ++ "://" ++ pu.host)
  else if startsWithS link "/" then some (pu.scheme ++ "://" ++ pu.host ++ link)
  else some (pu.scheme ++ "://" ++ pu.host ++ "/" ++ link)

/-- Step 1 of `findCareersPage` (route.ts lines 129-144): probe the
candidate paths in order.  A candidate is accepted when its response is
2xx and, after parsing the final URL (a parse failure throws and is
swallowed by the loop's `catch`), the `www.`-stripped final hostname
equals the base domain or the final URL matches an ATS pattern.  Besides
the result, the list of URLs actually fetched is returned (a fetch is
attempted for every path until one is accepted). -/
def probeLoop (w : World) (pu : UrlParts) (bd : String) :
    List String → Option Page × List String
  | [] => (none, [])
  | p :: rest =>
    let u := mkUrl pu p
    match w u with
    | none =>
      let r := probeLoop w pu bd rest
      (r.1, u :: r.2)
    | some res =>
      if res.ok then
        match parseUrl res.url with
        | none =>
          let r := probeLoop w pu bd rest
          (r.1, u :: r.2)
        | some fu =>
          if stripWww fu.host = bd ∨ (detectAtsFromUrl res.url).isSome then
            (some ⟨res.url, res.body⟩, [u])
          else
            let r := probeLoop w pu bd rest
            (r.1, u :: r.2)
      else
        let r := probeLoop w pu bd rest
        (r.1, u :: r.2)

/-- The attribute read of the tier-A scan (route.ts line 156):
`$(el).attr("src") || $(el).attr("href") || ""` over elements matching
`iframe[src], a[href]`. -/
def linkValSrcFirst (n : Node) : Option String :=
  if (n.tag == "iframe" && (n.attr "src").isSome) ||
      (n.tag == "a" && (n.attr "href").isSome) then
    some (((n.truthyAttr "src").orElse (fun _ => n.truthyAttr "href")).getD "")
  else none

/-- The attribute read of the careers-page outbound-link scan (route.ts
line 453): `$(el).attr("href") || $(el).attr("src") || ""` over elements
matching `a[href], iframe[src]`. -/
def linkValHrefFirst (n : Node) : Option String :=
  if (n.tag == "a" && (n.attr "href").isSome) ||
      (n.tag == "iframe" && (n.attr "src").isSome) then
    some (((n.truthyAttr "href").orElse (fun _ => n.truthyAttr "src")).getD "")
  else none

/-- The tier-A candidate list (route.ts lines 154-160): anchor/iframe
link values whose text matches an ATS URL pattern, in document order. -/
def tierAtsLinks (dom : List Node) : List String :=
  (collectKids linkValSrcFirst dom).filter (fun v => (detectAtsFromUrl v).isSome)

/-- The outbound ATS links mined from a located careers page (route.ts
lines 451-457). -/
def externalAtsLinks (dom : List Node) : List String :=
  (collectKids linkValHrefFirst dom).filter (fun v => (detectAtsFromUrl v).isSome)

/-- The tier-A fetch loop (route.ts lines 162-177): resolve each link
(skipping unresolvable ones), fetch it; a 2xx response is returned at
once (no same-domain check); a fetch that throws returns the resolved
candidate with empty HTML at once; a non-2xx response moves on.  Besides
the result, the list of URLs actually fetched is returned. -/
def tierALoop (w : World) (pu : UrlParts) :
    List String → Option Page × List String
  | [] => (none, [])
  | link :: rest =>
    match resolveUrl pu link with
    | none => tierALoop w pu rest
    | some fullUrl =>
      match w fullUrl with
      | none => (some ⟨fullUrl, Html.empty⟩, [fullUrl])
      | some res =>
        if res.ok then (some ⟨res.url, res.body⟩, [fullUrl])
        else
          let r := tierALoop w pu rest
          (r.1, fullUrl :: r.2)

/-- The keywords of the tier-B href pattern
`/\/(careers|jobs|open-positions|openings|vacancies)(\/|$|\?)/i`. -/
def tierBKws : List String :=
  ["careers", "jobs", "open-positions", "openings", "vacancies"]

/-- Does the tier-B pattern match at the head of the list: `/` + keyword
followed by `/`, end of string, or `?`. -/
def tierBAt (l : List Char) : Bool :=
  tierBKws.any (fun kw =>
    ciPrefix ('/' :: kw.data) l &&
    (match l.drop (kw.data.length + 1) with
     | [] => true
     | c :: _ => c == '/' || c == '?'))

/-- Scan every position for a tier-B pattern match. -/
def tierBScan : List Char → Bool
  | [] => false
  | c :: cs => tierBAt (c :: cs) || tierBScan cs

/-- `href` test of the tier-B scan (route.ts line 183). -/
def tierBMatch (href : String) : Bool := tierBScan href.data

/-- Tiers B and C of the homepage link mining (route.ts lines 180-199):
tier B collects anchor hrefs matching the careers-path pattern; tier C
appends anchors whose trimmed lower-cased text is exactly one of the
career phrases, when the href is longer than one character and not
already collected. -/
def careersLinks (dom : List Node) : List String :=
  (anchors dom).foldl
    (fun acc pr =>
      let t := lowerStr (jsTrim pr.2)
      if (t = "careers" ∨ t = "jobs" ∨ t = "work with us" ∨ t = "join us") ∧
          1 < pr.1.data.length ∧ ¬ acc.contains pr.1 then
        acc ++ [pr.1]
      else acc)
    ((anchors dom).filterMap
      (fun pr => if tierBMatch pr.1 then some pr.1 else none))

/-- The tier-B/C fetch loop (route.ts lines 201-219): resolve, fetch,
and accept under the same domain-or-ATS test as the path probe; every
failure just moves on. -/
def tierBCLoop (w : World) (pu : UrlParts) (bd : String) :
    List String → Option Page
  | [] => none
  | link :: rest =>
    match resolveUrl pu link with
    | none => tierBCLoop w pu bd rest
    | some fullUrl =>
      match w fullUrl with
      | none => tierBCLoop w pu bd rest
      | some res =>
        if res.ok then
          match parseUrl res.url with
          | none => tierBCLoop w pu bd rest
          | some fu =>
            if stripWww fu.host = bd ∨ (detectAtsFromUrl res.url).isSome then
              some ⟨res.url, res.body⟩
            else tierBCLoop w pu bd rest
        else tierBCLoop w pu bd rest

/-- `findCareersPage` (route.ts lines 124-226): candidate-path probe,
then homepage mining in tiers A (first 3 ATS links) and B/C (first 5
careers links); `none` when nothing is accepted.  (`POST` only calls it
with a parseable scheme+host base URL, so the unparseable-base case is
mapped to `none` here.) -/
def findCareersPage (w : World) (baseUrl : String) : Option Page :=
  match parseUrl baseUrl with
  | none => none
  | some pu =>
    let bd := stripWww pu.host
    match (probeLoop w pu bd CAREERS_PATHS).1 with
    | some pg => some pg
    | none =>
      match w baseUrl with
      | none => none
      | some hres =>
        if hres.ok then
          match (tierALoop w pu ((tierAtsLinks hres.body.dom).take 3)).1 with
          | some pg => some pg
          | none => tierBCLoop w pu (stripWww pu.host) ((careersLinks hres.body.dom).take 5)
        else none

/-- Board-token extraction for Greenhouse (route.ts lines 236-238).  The
source alternation `(?:boards|job-boards)\.greenhouse\.io\/([^/?#]+)` is
equivalent, for the captured group, to searching for the literal
`boards.greenhouse.io/`: any `job-boards.…` match contains a `boards.…`
match four positions later with the identical capture. -/
def ghSlug (u : String) : Option String :=
  (capAfter "boards.greenhouse.io/".data u.data).map (fun l => ⟨l⟩)

/-- Board-token extraction for Ashby (route.ts lines 272-274). -/
def ashbySlug (u : String) : Option String :=
  (capAfter "jobs.ashbyhq.com/".data u.data).map (fun l => ⟨l⟩)

/-- Board-token extraction for Lever (route.ts line 293). -/
def leverSlug (u : String) : Option String :=
  (capAfter "jobs.lever.co/".data u.data).map (fun l => ⟨l⟩)

/-- One `{ jobs: [...] }`-shaped API attempt: a 2xx response whose JSON
has an array `jobs` field yields its length; anything else (throw,
non-2xx, other JSON) yields no answer. -/
def tryJobsApi (w : World) (u : String) : Option Nat :=
  match w u with
  | some res =>
    if res.ok then
      match res.json with
      | some (.jobsArr n) => some n
      | _ => none
    else none
  | none => none

/-- One bare-array API attempt (Lever responds with a plain array). -/
def tryArrApi (w : World) (u : String) : Option Nat :=
  match w u with
  | some res =>
    if res.ok then
      match res.json with
      | some (.bareArr n) => some n
      | _ => none
    else none
  | none => none

/-- `countJobsViaApi` (route.ts lines 228-311): Greenhouse tries the
URL-extracted board token and then the lower-cased company name; Ashby
and Lever try the URL-extracted token with the company name as fallback
token.  Every failure falls through; with no supported vendor the answer
is `null`. -/
def countJobsViaApi (w : World) (careersUrl atsName companySlug : String) :
    Option Nat :=
  (if atsName = "Greenhouse" then
    (match ghSlug careersUrl with
     | some s =>
       tryJobsApi w ("https://boards-api.greenhouse.io/v1/boards/" ++ s ++ "/jobs")
     | none => none) <|>
    tryJobsApi w
      ("https://boards-api.greenhouse.io/v1/boards/" ++ lowerStr companySlug ++ "/jobs")
   else none) <|>
  (if atsName = "Ashby" then
    tryJobsApi w ("https://api.ashbyhq.com/posting-api/job-board/" ++
      ((ashbySlug careersUrl).getD (lowerStr companySlug)))
   else none) <|>
  (if atsName = "Lever" then
    tryArrApi w ("https://api.lever.co/v0/postings/" ++
      ((leverSlug careersUrl).getD (lowerStr companySlug)) ++ "?mode=json")
   else none)

/-- `if (count > 0) return count` as a value: the guarded early returns
of `countJobsFromHtml`. -/
def posCount (n : Nat) : Option Nat := if 0 < n then some n else none

/-- The `genericSelectors` list (route.ts lines 347-361), in order. -/
def genericSelectors : List Sel :=
  [ .simple (.classSub "job-listing"), .simple (.classSub "job-item"),
    .simple (.classSub "job-card"), .simple (.classSub "job-post"),
    .simple (.classSub "position-item"), .simple (.classSub "opening"),
    .simple (.classSub "vacancy"), .simple (.classSub "career-item"),
    .simple (.attrPresent "data-job-id"), .simple (.tagClassSub "tr" "job"),
    .simple (.tagClassSub "li" "job"), .simple (.classWord "posting"),
    .simple (.classWord "job") ]

/-- The segment alternatives of `/\/(jobs?|positions?|openings?|roles?)\//i`. -/
def jobSegPats : List String :=
  ["/job/", "/jobs/", "/position/", "/positions/", "/opening/", "/openings/",
   "/role/", "/roles/"]

/-- The href test of the last-resort link counter (route.ts lines 376-377). -/
def jobHrefTest (href : String) : Bool :=
  jobSegPats.any (fun p => containsCIL p.data href.data) ||
  containsCIL "/apply".data href.data

/-- The last-resort link counter's set of distinct lower-cased anchor
texts (route.ts lines 369-381): anchors with job-like hrefs and trimmed
text of length 6 to 199. -/
def jobLinkTexts (dom : List Node) : List String :=
  (anchors dom).foldl
    (fun acc pr =>
      let t := jsTrim pr.2
      if 5 < t.data.length ∧ t.data.length < 200 ∧ jobHrefTest pr.1 then
        (if acc.contains (lowerStr t) then acc else acc ++ [lowerStr t])
      else acc)
    []

/-- `countJobsFromHtml` (route.ts lines 313-386): empty HTML yields no
answer; then vendor-specific selector counts, generic selector counts
and the last-resort distinct-link count are tried in order, each
returning its count when positive. -/
def countJobsFromHtml (h : Html) (atsName : Option String) : Option Nat :=
  if h.raw = "" then none
  else
    (if atsName = some "Greenhouse" then
      posCount (countSel [.simple (.classWord "opening")] h.dom) <|>
      posCount (countSel [.simple (.classSub "job-post"),
                          .simple (.classSub "opening")] h.dom)
     else none) <|>
    (if atsName = some "Lever" then
      posCount (countSel [.simple (.classWord "posting")] h.dom)
     else none) <|>
    (if atsName = some "Ashby" then
      posCount (countSel [.simple (.classSub "ashby-job"),
                          .simple (.attrSub "data-testid" "job")] h.dom)
     else none) <|>
    (if atsName = some "SmartRecruiters" then
      posCount (countSel [.simple (.classWord "opening-job"),
                          .inside (.classWord "js-openings") (.tagIs "li"),
                          .simple (.classSub "job-item")] h.dom)
     else none) <|>
    (if atsName = some "Workable" then
      posCount (countSel [.simple (.attrEq "data-ui" "job"),
                          .simple (.tagAttrPresent "li" "data-role")] h.dom)
     else none) <|>
    genericSelectors.findSome? (fun s => posCount (countSel [s] h.dom)) <|>
    posCount (jobLinkTexts h.dom).length

/-- Upper-case hexadecimal digit, as `encodeURIComponent` produces. -/
def hexDigit (n : Nat) : Char :=
  if n < 10 then Char.ofNat (48 + n) else Char.ofNat (55 + n)

/-- Characters `encodeURIComponent` leaves unescaped. -/
def uriUnreserved (c : Char) : Bool :=
  c.isAlphanum || c == '-' || c == '_' || c == '.' || c == '!' || c == '~' ||
  c == '*' || c == '\'' || c == '(' || c == ')'

/-- UTF-8 bytes of one character. -/
def utf8Bytes (c : Char) : List Nat :=
  let n := c.toNat
  if n < 128 then [n]
  else if n < 2048 then [192 + n / 64, 128 + n % 64]
  else if n < 65536 then [224 + n / 4096, 128 + (n / 64) % 64, 128 + n % 64]
  else [240 + n / 262144, 128 + (n / 4096) % 64, 128 + (n / 64) % 64, 128 + n % 64]

/-- Percent-encode one byte. -/
def pctByte (b : Nat) : List Char := ['%', hexDigit (b / 16), hexDigit (b % 16)]

/-- Model of JS `encodeURIComponent`. -/
def encodeURIComponent (s : String) : String :=
  ⟨s.data.foldr
    (fun c acc =>
      (if uriUnreserved c then [c]
       else (utf8Bytes c).foldr (fun b a2 => pctByte b ++ a2) []) ++ acc)
    []⟩

/-- `buildLinkedInSearchUrl` (route.ts lines 388-391). -/
def buildLinkedInSearchUrl (companyName : String) : String :=
  "https://www.google.com/search?q=" ++ encodeURIComponent
    ("site:linkedin.com/in/ \"" ++ companyName ++
     "\" (\"recruiter\" OR \"talent acquisition\" OR \"head of recruitment\" OR \"recruitment manager\" OR \"TA lead\" OR \"talent lead\" OR \"head of people\" OR \"VP talent\")")

/-- The URL normalisation of `POST` (route.ts lines 404-411): trim, and
prefix `https://` unless the string already starts with `http://` or
`https://`. -/
def normalizeUrl (s : String) : String :=
  let t := jsTrim s
  if ¬ startsWithS t "http://" = true ∧ ¬ startsWithS t "https://" = true then
    "https://" ++ t
  else t

/-- The request bodies `POST` distinguishes: an unparseable JSON body
(`request.json()` throws, caught by the outer handler), a body whose
`url` is missing / not a string / falsy, and a string `url`. -/
inductive ReqBody where
  | badJson
  | noUrl
  | urlStr (s : String)

/-- The `ResearchResult` record (route.ts lines 4-11). -/
structure ResearchResult where
  companyName : String
  website : String
  atsDetected : String
  liveRoles : Option Nat
  linkedinSearchUrl : String
  careersUrl : Option String
  deriving Repr, DecidableEq

/-- A response from `POST`: the result JSON, or an error payload with a
status code. -/
inductive PostResponse where
  | ok (r : ResearchResult)
  | err (status : Nat) (msg : String)
  deriving Repr, DecidableEq

/-- The instrumented outcome of one request: the response together with
the observed counter activity — the results of every `countJobsFromHtml`
call made while probing the external ATS link (route.ts line 468), the
result of the `countJobsViaApi` call when one was made (route.ts line
482), and the results of every fallback `countJobsFromHtml` call
(route.ts line 494). -/
structure PostOut where
  resp : PostResponse
  extCalls : List (Option Nat)
  apiCall : Option (Option Nat)
  fbCalls : List (Option Nat)

/-- The external-ATS-link branch of `POST` (route.ts lines 449-478),
returning the updated `atsDetected`, `careersUrl`, `liveRoles` and the
`countJobsFromHtml` calls it made.  Entered when the careers page URL
matched no ATS pattern and its HTML is non-empty; takes the first
outbound ATS link, re-detects the vendor from it, sets it as the careers
URL, and on a successful fetch counts jobs in the fetched board and
moves the careers URL to the final response URL. -/
def extStage (w : World) (page : Page) (atsFromUrl : Option String)
    (ats0 : String) : String × String × Option Nat × List (Option Nat) :=
  if atsFromUrl = none ∧ page.html.raw ≠ "" then
    match externalAtsLinks page.html.dom with
    | [] => (ats0, page.url, none, [])
    | atsUrl :: _ =>
      let ats1 := (detectAtsFromUrl atsUrl).getD ats0
      match w atsUrl with
      | none => (ats1, atsUrl, none, [])
      | some res =>
        if res.ok then
          let c := countJobsFromHtml res.body (some ats1)
          (ats1, res.url, c, [c])
        else (ats1, atsUrl, none, [])
  else (ats0, page.url, none, [])

/-- The API tier of `POST` (route.ts lines 480-490): attempted only for
a recognised vendor, against `careersUrl || careersPage.url`; a definite
count overwrites `liveRoles`. -/
def apiStage (w : World) (pageUrl companyName ats cu : String)
    (lr : Option Nat) : Option (Option Nat) × Option Nat :=
  if ats ≠ "Unknown / Custom ATS" then
    let a := countJobsViaApi w (if cu = "" then pageUrl else cu) ats companyName
    (some a,
     match a with
     | some n => some n
     | none => lr)
  else (none, lr)

/-- The HTML fallback tier of `POST` (route.ts lines 492-498): when
`liveRoles` is still `null`, scrape the originally located careers page,
classifying it by its URL-derived vendor or, failing that, by its HTML
fingerprint. -/
def fbStage (page : Page) (atsFromUrl : Option String) (lr : Option Nat) :
    Option Nat × List (Option Nat) :=
  if lr = none then
    let c := countJobsFromHtml page.html
      (match atsFromUrl with
       | some a => some a
       | none => detectAtsFromHtml page.html.raw)
    (c, [c])
  else (lr, [])

/-- Everything `POST` computes after a careers page was located
(route.ts lines 433-499). -/
structure RolesOut where
  ats : String
  liveRoles : Option Nat
  cu : String
  extCalls : List (Option Nat)
  apiCall : Option (Option Nat)
  fbCalls : List (Option Nat)

/-- The located-page pipeline of `POST` (route.ts lines 433-499): vendor
from the page URL, else from the page HTML; then the external-ATS-link
branch, the API tier and the HTML fallback tier in order. -/
def researchWithPage (w : World) (companyName : String) (page : Page) :
    RolesOut :=
  let atsFromUrl := detectAtsFromUrl page.url
  let ats0 :=
    match atsFromUrl with
    | some a => a
    | none => (detectAtsFromHtml page.html.raw).getD "Unknown / Custom ATS"
  let e := extStage w page atsFromUrl ats0
  let a := apiStage w page.url companyName e.1 e.2.1 e.2.2.1
  let f := fbStage page atsFromUrl a.2
  ⟨e.1, f.1, e.2.1, e.2.2.2, a.1, f.2⟩

/-- `POST` (route.ts lines 393-520), instrumented with the counter
calls: input validation and URL normalisation, careers-page discovery,
and result assembly; a located page runs the counting pipeline, an
absent one reports the `"Unknown / Custom ATS"` / `null` result. -/
def runPost (w : World) (b : ReqBody) : PostOut :=
  match b with
  | .badJson =>
    ⟨.err 500 "Failed to research company. Please try again.", [], none, []⟩
  | .noUrl => ⟨.err 400 "Please provide a valid URL", [], none, []⟩
  | .urlStr s =>
    if s = "" then ⟨.err 400 "Please provide a valid URL", [], none, []⟩
    else
      match parseUrl (normalizeUrl s) with
      | none => ⟨.err 400 "Invalid URL format", [], none, []⟩
      | some pu =>
        let baseUrl := pu.scheme ++ "://" ++ pu.host
        let companyName := extractCompanyName (normalizeUrl s)
        match findCareersPage w baseUrl with
        | none =>
          ⟨.ok ⟨companyName, baseUrl, "Unknown / Custom ATS", none,
            buildLinkedInSearchUrl companyName, none⟩, [], none, []⟩
        | some page =>
          let r := researchWithPage w companyName page
          ⟨.ok ⟨companyName, baseUrl, r.ats, r.liveRoles,
            buildLinkedInSearchUrl companyName, some r.cu⟩,
           r.extCalls, r.apiCall, r.fbCalls⟩

/-- A careers page whose HTML links out to a Greenhouse board. -/
def careersHtml1 : Html :=
  ⟨"<a href=\"https://boards.greenhouse.io/acme\">Open roles</a>",
   [.mk "a" [("href", "https://boards.greenhouse.io/acme")] "Open roles" []]⟩

/-- A Greenhouse board page with two `.opening` entries. -/
def ghBoardHtml1 : Html :=
  ⟨"<div class=\"opening\">Engineer</div><div class=\"opening\">Designer</div>",
   [.mk "div" [("class", "opening")] "Engineer" [],
    .mk "div" [("class", "opening")] "Designer" []]⟩

/-- A world where `/careers` resolves on-domain, links out to a fetchable
Greenhouse board, and the Greenhouse API answers with five jobs. -/
def w1 : World := fun u =>
  if u = "https://acme.com/careers" then
    some ⟨true, "https://acme.com/careers", careersHtml1, none⟩
  else if u = "https://boards.greenhouse.io/acme" then
    some ⟨true, "https://boards.greenhouse.io/acme", ghBoardHtml1, none⟩
  else if u = "https://boards-api.greenhouse.io/v1/boards/acme/jobs" then
    some ⟨true, "https://boards-api.greenhouse.io/v1/boards/acme/jobs",
      Html.empty, some (.jobsArr 5)⟩
  else none

/-- A careers page linking to its ATS through a relative URL that no
fetch can resolve. -/
def c10Html : Html :=
  ⟨"<a href=\"/portal/greenhouse.io/acme\">Jobs at Acme</a>",
   [.mk "a" [("href", "/portal/greenhouse.io/acme")] "Jobs at Acme" []]⟩

/-- A world where `/careers` succeeds but every further fetch throws. -/
def w10 : World := fun u =>
  if u = "https://acme.com/careers" then
    some ⟨true, "https://acme.com/careers", c10Html, none⟩
  else none

/-- A world where `/careers` redirects to a Greenhouse board whose API
reports an empty (zero-job) board. -/
def w5 : World := fun u =>
  if u = "https://acme.com/careers" then
    some ⟨true, "https://boards.greenhouse.io/acme",
      ⟨"<p>empty board</p>", [.mk "p" [] "empty board" []]⟩, none⟩
  else if u = "https://boards-api.greenhouse.io/v1/boards/acme/jobs" then
    some ⟨true, "https://boards-api.greenhouse.io/v1/boards/acme/jobs",
      Html.empty, some (.jobsArr 0)⟩
  else none

/-- A world where every fetch throws. -/
def wNone : World := fun _ => none


/-- Worlds whose completed responses carry a parseable final URL — the
fetch API always reports a serialised absolute URL as `res.url`. -/
def WellFormedWorld (w : World) : Prop :=
  ∀ u r, w u = some r → (parseUrl r.url).isSome = true

/-- The acceptance test of the candidate-path probe for one path, as the
loop body evaluates it (route.ts lines 133-139). -/
def pathAccepts (w : World) (pu : UrlParts) (bd : String) (p : String) : Bool :=
  match w (mkUrl pu p) with
  | none => false
  | some res =>
    res.ok &&
      (match parseUrl res.url with
       | none => false
       | some fu => (stripWww fu.host == bd) || (detectAtsFromUrl res.url).isSome)

/-- The page a probed path produces when its fetch completes. -/
def pageOfPath (w : World) (pu : UrlParts) (p : String) : Option Page :=
  (w (mkUrl pu p)).map (fun res => ⟨res.url, res.body⟩)

/-- A tier-A candidate that neither returns nor aborts the loop: it is
unresolvable, or its fetch completes with a non-2xx response. -/
def TierASkips (w : World) (pu : UrlParts) (q : String) : Prop :=
  resolveUrl pu q = none ∨
  ∃ fu res, resolveUrl pu q = some fu ∧ w fu = some res ∧ res.ok = false

theorem toNat_ofNatLT (n : Nat) (h : n < 55296) : (Char.ofNat n).toNat = n := by
  unfold Char.ofNat
  rw [dif_pos (Or.inl h)]
  rfl

theorem upChar_toNat_lower {c : Char} (h : 97 ≤ c.toNat ∧ c.toNat ≤ 122) :
    (upChar c).toNat = c.toNat - 32 := by
  unfold upChar
  rw [if_pos h]
  exact toNat_ofNatLT _ (by omega)

theorem upChar_ne_dot {c : Char} (h : c ≠ '.') : upChar c ≠ '.' := by
  by_cases hl : 97 ≤ c.toNat ∧ c.toNat ≤ 122
  · intro heq
    have := congrArg Char.toNat heq
    rw [upChar_toNat_lower hl] at this
    have hd : ('.').toNat = 46 := by decide
    omega
  · rw [upChar, if_neg hl]
    exact h

theorem upChar_ne_w (c : Char) : upChar c ≠ 'w' := by
  by_cases hl : 97 ≤ c.toNat ∧ c.toNat ≤ 122
  · intro heq
    have := congrArg Char.toNat heq
    rw [upChar_toNat_lower hl] at this
    have hw : ('w').toNat = 119 := by decide
    omega
  · rw [upChar, if_neg hl]
    intro heq
    subst heq
    exact hl (by decide)

theorem upChar_upChar (c : Char) : upChar (upChar c) = upChar c := by
  by_cases hl : 97 ≤ c.toNat ∧ c.toNat ≤ 122
  · have ht := upChar_toNat_lower hl
    have h2 : ¬ (97 ≤ (upChar c).toNat ∧ (upChar c).toNat ≤ 122) := by omega
    conv_lhs => rw [upChar]
    rw [if_neg h2]
  · have h0 : upChar c = c := by rw [upChar, if_neg hl]
    rw [h0]
    exact h0

theorem companyFromHostname_idem (h : String) :
    companyFromHostname (companyFromHostname h) = companyFromHostname h := by
  unfold companyFromHostname
  cases hc : (stripWwwL h.data).takeWhile (fun c => !(c == '.')) with
  | nil => rfl
  | cons c cs =>
    have hmemc : c ∈ (stripWwwL h.data).takeWhile (fun c => !(c == '.')) := by
      rw [hc]; exact List.mem_cons_self c cs
    have hcd := List.mem_takeWhile_imp hmemc
    have hcs : ∀ x ∈ cs, (!(x == '.')) = true := by
      intro x hx
      have hmemx : x ∈ (stripWwwL h.data).takeWhile (fun c => !(c == '.')) := by
        rw [hc]; exact List.mem_cons_of_mem c hx
      have := List.mem_takeWhile_imp hmemx
      simpa using this
    have hc' : c ≠ '.' := by simpa using hcd
    show capitalizeJS ⟨(stripWwwL (capitalizeJS ⟨c :: cs⟩).data).takeWhile _⟩ =
      capitalizeJS ⟨c :: cs⟩
    have hcap : capitalizeJS ⟨c :: cs⟩ = ⟨upChar c :: cs⟩ := rfl
    rw [hcap]
    have hwb : ('w' == upChar c) = false :=
      beq_eq_false_iff_ne.mpr (fun he => upChar_ne_w c he.symm)
    have hff : isPrefixL ['w', 'w', 'w', '.'] (upChar c :: cs) = false := by
      show ('w' == upChar c && isPrefixL ['w', 'w', '.'] cs) = false
      rw [hwb, Bool.false_and]
    have h1 : stripWwwL (upChar c :: cs) = upChar c :: cs := by
      simp [stripWwwL, hff]
    have h2 : (upChar c :: cs).takeWhile (fun x => !(x == '.')) = upChar c :: cs := by
      refine List.takeWhile_eq_self_iff.mpr ?_
      intro x hx
      rcases List.mem_cons.mp hx with hx1 | hx2
      · subst hx1
        simpa using upChar_ne_dot hc'
      · exact hcs x hx2
    show capitalizeJS ⟨(stripWwwL (upChar c :: cs)).takeWhile _⟩ = _
    rw [h1, h2]
    show (⟨upChar (upChar c) :: cs⟩ : String) = ⟨upChar c :: cs⟩
    rw [upChar_upChar]

/-- C8: `extractCompanyName` is idempotent on `www.`-stripped hostnames —
the hostname-to-name computation `companyFromHostname` (strip `www.`,
take the first DNS label, capitalize) is an idempotent function — and for
every parseable URL `extractCompanyName` yields exactly
`companyFromHostname` of the parsed hostname (first label of the
`www.`-stripped hostname, first character upper-cased), e.g.
`https://www.stripe.com/about` yields `Stripe`; for every input the URL
parser rejects (e.g. `bad url`) it returns `Unknown`. -/
theorem c8_extractCompanyName :
    (∀ h : String, companyFromHostname (companyFromHostname h) = companyFromHostname h)
    ∧ (∀ url pu, parseUrl url = some pu →
        extractCompanyName url = companyFromHostname pu.host)
    ∧ (∀ url, parseUrl url = none → extractCompanyName url = "Unknown")
    ∧ extractCompanyName "https://www.stripe.com/about" = "Stripe"
    ∧ extractCompanyName "bad url" = "Unknown" := by
  refine ⟨companyFromHostname_idem, ?_, ?_, rfl, rfl⟩
  · intro url pu hp
    rw [extractCompanyName, hp]
  · intro url hp
    rw [extractCompanyName, hp]

/-- C8 witness: the theorem instantiated at `https://www.stripe.com/about`
(parseable, hostname `www.stripe.com`) and at the unparseable `nota url`. -/
theorem c8_extractCompanyName_witness :
    extractCompanyName "https://www.stripe.com/about" = companyFromHostname "www.stripe.com"
    ∧ companyFromHostname (companyFromHostname "www.stripe.com") =
        companyFromHostname "www.stripe.com"
    ∧ extractCompanyName "nota url" = "Unknown" :=
  ⟨c8_extractCompanyName.2.1 "https://www.stripe.com/about" ⟨"https", "www.stripe.com"⟩ rfl,
   c8_extractCompanyName.1 "www.stripe.com",
   c8_extractCompanyName.2.2.1 "nota url" rfl⟩

theorem detectAtsGo_eq_find (url : String) :
    ∀ l : List AtsEntry,
      detectAtsGo url l = (l.find? (fun e => atsEntryMatches url e)).map AtsEntry.name := by
  intro l
  induction l with
  | nil => rfl
  | cons e rest ih =>
    cases hm : atsEntryMatches url e with
    | true =>
      rw [detectAtsGo, if_pos hm, List.find?_cons_of_pos _ hm]
      rfl
    | false =>
      rw [detectAtsGo, if_neg (by simp [hm]), List.find?_cons_of_neg _ (by simp [hm])]
      exact ih

/-- C4: `detectAtsFromUrl` is first-match-in-table-order — for every URL
it returns the name of the earliest `ATS_PATTERNS` entry with a matching
pattern (the `List.find?` of the table), and `none` exactly when no
pattern of any entry matches; in particular the URL
`https://greenhouse.io/a?ref=jobs.lever.co`, which matches patterns of
both Greenhouse and Lever, yields Greenhouse, the vendor that appears
earlier in the table. -/
theorem c4_detectAtsFromUrl :
    (∀ url, detectAtsFromUrl url =
      (ATS_PATTERNS.find? (fun e => atsEntryMatches url e)).map AtsEntry.name)
    ∧ (∀ url, detectAtsFromUrl url = none ↔
        ∀ e ∈ ATS_PATTERNS, atsEntryMatches url e = false)
    ∧ detectAtsFromUrl "https://greenhouse.io/a?ref=jobs.lever.co" = some "Greenhouse"
    ∧ (ATS_PATTERNS.filter
        (fun e => atsEntryMatches "https://greenhouse.io/a?ref=jobs.lever.co" e)).map
        AtsEntry.name = ["Greenhouse", "Lever"] := by
  refine ⟨fun url => detectAtsGo_eq_find url ATS_PATTERNS, ?_, by decide, by decide⟩
  intro url
  rw [detectAtsFromUrl, detectAtsGo_eq_find url ATS_PATTERNS]
  simp [List.find?_eq_none]

theorem posCount_pos {m n : Nat} (h : posCount m = some n) : 0 < n := by
  unfold posCount at h
  split at h
  · injection h with h'
    omega
  · exact absurd h (by simp)

theorem orElse_eval {α : Type} (a b : Option α) :
    (a <|> b) = match a with | some x => some x | none => b := by
  cases a <;> rfl

theorem orElse_pos {a b : Option Nat} (ha : ∀ n, a = some n → 0 < n)
    (hb : ∀ n, b = some n → 0 < n) : ∀ n, (a <|> b) = some n → 0 < n := by
  intro n h
  rw [orElse_eval] at h
  cases a with
  | none => exact hb n h
  | some x => exact ha n h

theorem ite_pos_opt {c : Prop} [Decidable c] {a : Option Nat}
    (ha : ∀ n, a = some n → 0 < n) :
    ∀ n, (if c then a else none) = some n → 0 < n := by
  intro n h
  split at h
  · exact ha n h
  · exact absurd h (by simp)

theorem findSome_posCount {α : Type} (g : α → Nat) :
    ∀ (l : List α) (n : Nat),
      (l.findSome? (fun x => posCount (g x))) = some n → 0 < n := by
  intro l
  induction l with
  | nil => intro n h; simp at h
  | cons a rest ih =>
    intro n h
    rw [List.findSome?_cons] at h
    cases hpc : posCount (g a) with
    | some b =>
      rw [hpc] at h
      injection h with h'
      subst h'
      exact posCount_pos hpc
    | none =>
      rw [hpc] at h
      exact ih n h

theorem countJobsFromHtml_pos (h : Html) (a : Option String) :
    ∀ n, countJobsFromHtml h a = some n → 0 < n := by
  intro n hn
  rw [countJobsFromHtml] at hn
  split at hn
  · exact absurd hn (by simp)
  · revert hn
    refine orElse_pos (ite_pos_opt (orElse_pos (fun n => posCount_pos)
      (fun n => posCount_pos)))
      (orElse_pos (ite_pos_opt (fun n => posCount_pos))
      (orElse_pos (ite_pos_opt (fun n => posCount_pos))
      (orElse_pos (ite_pos_opt (fun n => posCount_pos))
      (orElse_pos (ite_pos_opt (fun n => posCount_pos))
      (orElse_pos (fun n => findSome_posCount _ genericSelectors n)
        (fun n => posCount_pos)))))) n

theorem extStage_lr_pos (w : World) (page : Page) (afu : Option String)
    (ats0 : String) :
    ∀ k, (extStage w page afu ats0).2.2.1 = some k → 0 < k := by
  intro k hk
  unfold extStage at hk
  split at hk
  · split at hk
    · simp at hk
    · split at hk
      · simp at hk
      · split at hk
        · exact countJobsFromHtml_pos _ _ k hk
        · simp at hk
  · simp at hk

theorem extStage_lr_none (w : World) (page : Page) (afu : Option String)
    (ats0 : String)
    (h : ∀ x ∈ (extStage w page afu ats0).2.2.2, x = none) :
    (extStage w page afu ats0).2.2.1 = none := by
  revert h
  unfold extStage
  split
  · split
    · intro _; rfl
    · split
      · intro _; rfl
      · split
        · intro h; exact h _ (by simp)
        · intro _; rfl
  · intro _; rfl

theorem apiStage_api_definite (w : World) (pageUrl companyName ats cu : String)
    (lr : Option Nat) (n : Nat)
    (h : (apiStage w pageUrl companyName ats cu lr).1 = some (some n)) :
    (apiStage w pageUrl companyName ats cu lr).2 = some n := by
  by_cases hats : ats ≠ "Unknown / Custom ATS"
  · rw [apiStage, if_pos hats] at h ⊢
    simp only at h
    injection h with h'
    simp only [h']
  · rw [apiStage, if_neg hats] at h
    exact absurd h (by simp)

theorem apiStage_snd_some (w : World) (pageUrl companyName ats cu : String)
    (lr : Option Nat) (n : Nat)
    (h : (apiStage w pageUrl companyName ats cu lr).2 = some n) :
    (apiStage w pageUrl companyName ats cu lr).1 = some (some n) ∨ lr = some n := by
  by_cases hats : ats ≠ "Unknown / Custom ATS"
  · rw [apiStage, if_pos hats] at h ⊢
    cases ha : countJobsViaApi w (if cu = "" then pageUrl else cu) ats companyName with
    | some m =>
      simp only [ha] at h ⊢
      injection h with h'
      left
      rw [h']
    | none =>
      simp only [ha] at h
      right
      exact h
  · rw [apiStage, if_neg hats] at h
    right
    exact h

theorem apiStage_snd_none (w : World) (pageUrl companyName ats cu : String)
    (lr : Option Nat) (hlr : lr = none)
    (hapi : ∀ n, (apiStage w pageUrl companyName ats cu lr).1 ≠ some (some n)) :
    (apiStage w pageUrl companyName ats cu lr).2 = none := by
  by_cases hats : ats ≠ "Unknown / Custom ATS"
  · rw [apiStage, if_pos hats] at hapi ⊢
    cases ha : countJobsViaApi w (if cu = "" then pageUrl else cu) ats companyName with
    | some m =>
      exact absurd (by simp only [ha]) (hapi m)
    | none =>
      simp only [ha]
      exact hlr
  · rw [apiStage, if_neg hats]
    exact hlr

theorem fbStage_of_some (page : Page) (afu : Option String) (lr : Option Nat)
    (n : Nat) (h : lr = some n) : fbStage page afu lr = (some n, []) := by
  subst h
  rw [fbStage.eq_def, if_neg (by simp)]

theorem fbStage_fst_zero (page : Page) (afu : Option String) (lr : Option Nat)
    (h : (fbStage page afu lr).1 = some 0) : lr = some 0 := by
  by_cases hl : lr = none
  · subst hl
    rw [fbStage.eq_def, if_pos rfl] at h
    have := countJobsFromHtml_pos _ _ 0 h
    omega
  · rw [fbStage.eq_def, if_neg hl] at h
    exact h

theorem fbStage_fst_none (page : Page) (afu : Option String) (lr : Option Nat)
    (hlr : lr = none)
    (hall : ∀ x ∈ (fbStage page afu lr).2, x = none) :
    (fbStage page afu lr).1 = none := by
  subst hlr
  rw [fbStage.eq_def, if_pos rfl] at hall ⊢
  exact hall _ (by simp)

theorem rwp_api_definite (w : World) (cn : String) (page : Page) (n : Nat)
    (h : (researchWithPage w cn page).apiCall = some (some n)) :
    (researchWithPage w cn page).fbCalls = [] := by
  simp only [researchWithPage] at h ⊢
  rw [fbStage_of_some _ _ _ n (apiStage_api_definite _ _ _ _ _ _ n h)]

theorem rwp_liveRoles_zero (w : World) (cn : String) (page : Page)
    (h : (researchWithPage w cn page).liveRoles = some 0) :
    (researchWithPage w cn page).apiCall = some (some 0) := by
  simp only [researchWithPage] at h ⊢
  have h2 := fbStage_fst_zero _ _ _ h
  rcases apiStage_snd_some _ _ _ _ _ _ _ h2 with h3 | h3
  · exact h3
  · have := extStage_lr_pos _ _ _ _ 0 h3
    omega

theorem rwp_liveRoles_none (w : World) (cn : String) (page : Page)
    (hext : ∀ x ∈ (researchWithPage w cn page).extCalls, x = none)
    (hapi : ∀ n, (researchWithPage w cn page).apiCall ≠ some (some n))
    (hfb : ∀ x ∈ (researchWithPage w cn page).fbCalls, x = none) :
    (researchWithPage w cn page).liveRoles = none := by
  simp only [researchWithPage] at hext hapi hfb ⊢
  have h1 := extStage_lr_none _ _ _ _ hext
  have h2 := apiStage_snd_none _ _ _ _ _ _ h1 hapi
  exact fbStage_fst_none _ _ _ h2 hfb

theorem runPost_page (w : World) (s : String) (pu : UrlParts) (page : Page)
    (hs : ¬ s = "") (hp : parseUrl (normalizeUrl s) = some pu)
    (hf : findCareersPage w (pu.scheme ++ "://" ++ pu.host) = some page) :
    runPost w (.urlStr s) =
      ⟨.ok ⟨extractCompanyName (normalizeUrl s), pu.scheme ++ "://" ++ pu.host,
        (researchWithPage w (extractCompanyName (normalizeUrl s)) page).ats,
        (researchWithPage w (extractCompanyName (normalizeUrl s)) page).liveRoles,
        buildLinkedInSearchUrl (extractCompanyName (normalizeUrl s)),
        some (researchWithPage w (extractCompanyName (normalizeUrl s)) page).cu⟩,
       (researchWithPage w (extractCompanyName (normalizeUrl s)) page).extCalls,
       (researchWithPage w (extractCompanyName (normalizeUrl s)) page).apiCall,
       (researchWithPage w (extractCompanyName (normalizeUrl s)) page).fbCalls⟩ := by
  simp only [runPost, hs, hp, hf, if_neg hs]
  rfl

/-- C1 counterexample: a request in which the API tier returns the
definite count 5 and yet `countJobsFromHtml` was invoked (once, on the
externally linked ATS board, where it read 2 openings): in `w1` the
careers page links out to a Greenhouse board that is fetched and scraped
(route.ts line 468) before the Greenhouse API answers. -/
theorem c1_counterexample :
    (runPost w1 (.urlStr "acme.com")).apiCall = some (some 5) ∧
    (runPost w1 (.urlStr "acme.com")).extCalls = [some 2] ∧
    (runPost w1 (.urlStr "acme.com")).resp =
      .ok ⟨"Acme", "https://acme.com", "Greenhouse", some 5,
        buildLinkedInSearchUrl "Acme", some "https://boards.greenhouse.io/acme"⟩ :=
  ⟨rfl, rfl, rfl⟩

/-- C1 (amended): whenever the API tier returns a definite count, the
post-API HTML fallback (route.ts line 493) is never consulted — though
`countJobsFromHtml` may already have run earlier in the same request
while probing an external ATS link (route.ts line 468). -/
theorem c1_api_short_circuit : ∀ (w : World) (b : ReqBody) (n : Nat),
    (runPost w b).apiCall = some (some n) → (runPost w b).fbCalls = [] := by
  intro w b n h
  cases b with
  | badJson => simp [runPost] at h
  | noUrl => simp [runPost] at h
  | urlStr s =>
    by_cases hs : s = ""
    · simp [runPost, hs] at h
    · cases hp : parseUrl (normalizeUrl s) with
      | none => simp [runPost, hs, hp] at h
      | some pu =>
        cases hf : findCareersPage w (pu.scheme ++ "://" ++ pu.host) with
        | none => simp [runPost, hs, hp, hf] at h
        | some page =>
          rw [runPost_page w s pu page hs hp hf] at h ⊢
          exact rwp_api_definite _ _ _ n h

/-- C1 witness: the amended theorem applied to the concrete world `w1`,
where the API returned 5: no fallback scraping call was made. -/
theorem c1_api_short_circuit_witness :
    (runPost w1 (.urlStr "acme.com")).fbCalls = [] :=
  c1_api_short_circuit w1 (.urlStr "acme.com") 5 rfl

/-- C9: `countJobsFromHtml` never returns zero — its answer is absent or
strictly positive — and consequently a `liveRoles` of `0` in a returned
result can only have come from the API tier: whenever a successful
response reports `liveRoles = some 0`, the `countJobsViaApi` call was
made and returned `0`. -/
theorem c9_htmlCounter_positive :
    (∀ (h : Html) (a : Option String) (n : Nat),
        countJobsFromHtml h a = some n → 0 < n)
    ∧ (∀ (w : World) (b : ReqBody) (r : ResearchResult),
        (runPost w b).resp = .ok r → r.liveRoles = some 0 →
        (runPost w b).apiCall = some (some 0)) := by
  refine ⟨countJobsFromHtml_pos, ?_⟩
  intro w b r hr h0
  cases b with
  | badJson => simp [runPost] at hr
  | noUrl => simp [runPost] at hr
  | urlStr s =>
    by_cases hs : s = ""
    · simp [runPost, hs] at hr
    · cases hp : parseUrl (normalizeUrl s) with
      | none => simp [runPost, hs, hp] at hr
      | some pu =>
        cases hf : findCareersPage w (pu.scheme ++ "://" ++ pu.host) with
        | none =>
          simp only [runPost, hp, hf, if_neg hs] at hr
          injection hr with hr'
          rw [← hr'] at h0
          exact absurd h0 (by simp)
        | some page =>
          rw [runPost_page w s pu page hs hp hf] at hr ⊢
          injection hr with hr'
          rw [← hr'] at h0
          exact rwp_liveRoles_zero _ _ _ h0

/-- C9 witness: a concrete scrape returning the positive count 2, and
the concrete world `w5` where `liveRoles = some 0` indeed came from the
API tier (which returned 0). -/
theorem c9_htmlCounter_positive_witness :
    countJobsFromHtml ghBoardHtml1 (some "Greenhouse") = some 2 ∧ 0 < 2 ∧
    (runPost w5 (.urlStr "acme.com")).apiCall = some (some 0) :=
  ⟨rfl, c9_htmlCounter_positive.1 ghBoardHtml1 (some "Greenhouse") 2 rfl,
   c9_htmlCounter_positive.2 w5 (.urlStr "acme.com")
     ⟨"Acme", "https://acme.com", "Greenhouse", some 0,
      buildLinkedInSearchUrl "Acme", some "https://boards.greenhouse.io/acme"⟩
     rfl rfl⟩

/-- C5: in every successful response `liveRoles` is either absent or a
natural number (counts are array lengths and DOM-match counts, hence
never negative); when no tier determined a count — every scraping call
answered `none` and no definite API answer arrived — `liveRoles` is
absent; and zero is a possible determined value (world `w5`: an empty
Greenhouse board reported through the API gives `liveRoles = some 0`, not
absent). -/
theorem c5_liveRoles_invariant :
    (∀ (w : World) (b : ReqBody) (r : ResearchResult),
        (runPost w b).resp = .ok r →
        (r.liveRoles = none ∨ ∃ n : Nat, r.liveRoles = some n))
    ∧ (∀ (w : World) (b : ReqBody) (r : ResearchResult),
        (runPost w b).resp = .ok r →
        (∀ x ∈ (runPost w b).extCalls, x = none) →
        (∀ n, (runPost w b).apiCall ≠ some (some n)) →
        (∀ x ∈ (runPost w b).fbCalls, x = none) →
        r.liveRoles = none)
    ∧ (runPost w5 (.urlStr "acme.com")).resp =
        .ok ⟨"Acme", "https://acme.com", "Greenhouse", some 0,
          buildLinkedInSearchUrl "Acme", some "https://boards.greenhouse.io/acme"⟩ := by
  refine ⟨?_, ?_, rfl⟩
  · intro w b r _
    cases hl : r.liveRoles with
    | none => exact Or.inl rfl
    | some n => exact Or.inr ⟨n, rfl⟩
  · intro w b r hr hext hapi hfb
    cases b with
    | badJson => simp [runPost] at hr
    | noUrl => simp [runPost] at hr
    | urlStr s =>
      by_cases hs : s = ""
      · simp [runPost, hs] at hr
      · cases hp : parseUrl (normalizeUrl s) with
        | none => simp [runPost, hs, hp] at hr
        | some pu =>
          cases hf : findCareersPage w (pu.scheme ++ "://" ++ pu.host) with
          | none =>
            simp only [runPost, hp, hf, if_neg hs] at hr
            injection hr with hr'
            rw [← hr']
          | some page =>
            rw [runPost_page w s pu page hs hp hf] at hr hext hapi hfb
            injection hr with hr'
            rw [← hr']
            exact rwp_liveRoles_none _ _ _ hext hapi hfb

/-- C5 witness: the determined-absent conjunct applied to the world
where every fetch throws — no tier answers and `liveRoles` is absent. -/
theorem c5_liveRoles_invariant_witness :
    (runPost wNone (.urlStr "acme.com")).resp =
      .ok ⟨"Acme", "https://acme.com", "Unknown / Custom ATS", none,
        buildLinkedInSearchUrl "Acme", none⟩ ∧
    (⟨"Acme", "https://acme.com", "Unknown / Custom ATS", none,
        buildLinkedInSearchUrl "Acme", none⟩ : ResearchResult).liveRoles = none :=
  ⟨rfl,
   c5_liveRoles_invariant.2.1 wNone (.urlStr "acme.com")
     ⟨"Acme", "https://acme.com", "Unknown / Custom ATS", none,
      buildLinkedInSearchUrl "Acme", none⟩
     rfl (fun _ hx => nomatch hx) (fun _ h => nomatch h) (fun _ hx => nomatch hx)⟩

/-- C6: when `findCareersPage` locates nothing, the request still
succeeds (a normal `ok` response, not an error) with `careersUrl` null,
`atsDetected` reported as `"Unknown / Custom ATS"` and `liveRoles`
absent, and no counting tier is ever consulted. -/
theorem c6_not_found_result : ∀ (w : World) (s : String) (pu : UrlParts),
    ¬ s = "" → parseUrl (normalizeUrl s) = some pu →
    findCareersPage w (pu.scheme ++ "://" ++ pu.host) = none →
    runPost w (.urlStr s) =
      ⟨.ok ⟨extractCompanyName (normalizeUrl s), pu.scheme ++ "://" ++ pu.host,
        "Unknown / Custom ATS", none,
        buildLinkedInSearchUrl (extractCompanyName (normalizeUrl s)), none⟩,
       [], none, []⟩ := by
  intro w s pu hs hp hf
  simp only [runPost, hs, hp, hf, if_neg hs]
  rfl

/-- C6 witness: the theorem applied to the world where every fetch
throws (all candidate paths and the homepage fail), at input
`acme.com`. -/
theorem c6_not_found_result_witness :
    runPost wNone (.urlStr "acme.com") =
      ⟨.ok ⟨"Acme", "https://acme.com", "Unknown / Custom ATS", none,
        buildLinkedInSearchUrl "Acme", none⟩, [], none, []⟩ :=
  c6_not_found_result wNone "acme.com" ⟨"https", "acme.com"⟩
    (by decide) rfl rfl

theorem breakOnSub_https (l : List Char) :
    breakOnSub [':', '/', '/']
      ('h' :: 't' :: 't' :: 'p' :: 's' :: ':' :: '/' :: '/' :: l) =
      some (['h', 't', 't', 'p', 's'], l) := rfl

theorem breakOnSub_http (l : List Char) :
    breakOnSub [':', '/', '/']
      ('h' :: 't' :: 't' :: 'p' :: ':' :: '/' :: '/' :: l) =
      some (['h', 't', 't', 'p'], l) := rfl

theorem isPrefixL_iff : ∀ (p l : List Char), isPrefixL p l = true ↔ ∃ u, l = p ++ u := by
  intro p
  induction p with
  | nil =>
    intro l
    simp [isPrefixL]
  | cons c cs ih =>
    intro l
    cases l with
    | nil =>
      constructor
      · intro h
        exact nomatch h
      · rintro ⟨u, hu⟩
        exact absurd hu (by simp)
    | cons d ds =>
      constructor
      · intro h
        have hh : (c == d) = true ∧ isPrefixL cs ds = true := by
          have h2 : (c == d && isPrefixL cs ds) = true := h
          simp only [Bool.and_eq_true] at h2
          exact h2
        have hcd : c = d := beq_iff_eq.mp hh.1
        subst hcd
        obtain ⟨u, hu⟩ := (ih ds).mp hh.2
        exact ⟨u, by rw [hu]; rfl⟩
      · rintro ⟨u, hu⟩
        have h1 : d = c := by
          have := congrArg (fun x => x.headD ' ') hu
          simpa using this
        subst h1
        have h2 : ds = cs ++ u := by
          have := congrArg List.tail hu
          simpa using this
        show (d == d && isPrefixL cs ds) = true
        rw [beq_self_eq_true, Bool.true_and]
        exact (ih ds).mpr ⟨u, h2⟩

theorem parseAfterScheme_scheme (sch rest : List Char) (pu : UrlParts)
    (h : parseAfterScheme sch rest = some pu) : pu.scheme = ⟨sch.map downChar⟩ := by
  unfold parseAfterScheme at h
  split at h
  · dsimp only at h
    split at h
    · injection h with h'
      rw [← h']
    · exact absurd h (by simp)
  · exact absurd h (by simp)

theorem parseUrl_https_append (t : String) (pu : UrlParts)
    (h : parseUrl ("https://" ++ t) = some pu) : pu.scheme = "https" := by
  have hd : (("https://" ++ t) : String).data =
      'h' :: 't' :: 't' :: 'p' :: 's' :: ':' :: '/' :: '/' :: t.data := rfl
  rw [parseUrl, hd, breakOnSub_https] at h
  have h2 : parseAfterScheme ['h', 't', 't', 'p', 's'] t.data = some pu := h
  rw [parseAfterScheme_scheme _ _ _ h2]
  rfl

theorem parseUrl_scheme_of_starts_http (t : String) (pu : UrlParts)
    (hs : startsWithS t "http://" = true)
    (h : parseUrl t = some pu) : pu.scheme = "http" := by
  obtain ⟨u, hu⟩ := (isPrefixL_iff "http://".data t.data).mp hs
  rw [parseUrl, hu] at h
  have hb : breakOnSub [':', '/', '/'] ("http://".data ++ u) = some (['h', 't', 't', 'p'], u) :=
    breakOnSub_http u
  rw [hb] at h
  have h2 : parseAfterScheme ['h', 't', 't', 'p'] u = some pu := h
  rw [parseAfterScheme_scheme _ _ _ h2]
  rfl

theorem parseUrl_scheme_of_starts_https (t : String) (pu : UrlParts)
    (hs : startsWithS t "https://" = true)
    (h : parseUrl t = some pu) : pu.scheme = "https" := by
  obtain ⟨u, hu⟩ := (isPrefixL_iff "https://".data t.data).mp hs
  rw [parseUrl, hu] at h
  have hb : breakOnSub [':', '/', '/'] ("https://".data ++ u) =
      some (['h', 't', 't', 'p', 's'], u) := breakOnSub_https u
  rw [hb] at h
  have h2 : parseAfterScheme ['h', 't', 't', 'p', 's'] u = some pu := h
  rw [parseAfterScheme_scheme _ _ _ h2]
  rfl

/-- C7: URL normalisation — for every input whose trimmed form starts
with neither `http://` nor `https://` the normalised URL is the trimmed
input prefixed with `https://`; an input already carrying `http://` or
`https://` is kept as trimmed, scheme preserved; and hence whenever the
normalised URL parses, the derived base URL's scheme is `http` or
`https`. -/
theorem c7_normalizeUrl : ∀ s : String,
    ((startsWithS (jsTrim s) "http://" = false ∧
      startsWithS (jsTrim s) "https://" = false) →
      normalizeUrl s = "https://" ++ jsTrim s)
    ∧ (startsWithS (jsTrim s) "http://" = true → normalizeUrl s = jsTrim s)
    ∧ (startsWithS (jsTrim s) "https://" = true → normalizeUrl s = jsTrim s)
    ∧ (∀ pu, parseUrl (normalizeUrl s) = some pu →
        pu.scheme = "http" ∨ pu.scheme = "https") := by
  intro s
  refine ⟨?_, ?_, ?_, ?_⟩
  · intro h
    rw [normalizeUrl, if_pos (by simp [h.1, h.2])]
  · intro h
    rw [normalizeUrl, if_neg (by simp [h])]
  · intro h
    rw [normalizeUrl, if_neg (by simp [h])]
  · intro pu hp
    by_cases h1 : startsWithS (jsTrim s) "http://" = true
    · rw [normalizeUrl, if_neg (by simp [h1])] at hp
      exact Or.inl (parseUrl_scheme_of_starts_http _ _ h1 hp)
    · by_cases h2 : startsWithS (jsTrim s) "https://" = true
      · rw [normalizeUrl, if_neg (by simp [h2])] at hp
        exact Or.inr (parseUrl_scheme_of_starts_https _ _ h2 hp)
      · rw [normalizeUrl,
          if_pos (by simp at h1 h2; exact ⟨by simp [h1], by simp [h2]⟩)] at hp
        exact Or.inr (parseUrl_https_append _ _ hp)

/-- C7 witness: the theorem instantiated at a scheme-less input (which
gains `https://`), at inputs with each scheme (preserved), and the
scheme of the parsed normalised URL. -/
theorem c7_normalizeUrl_witness :
    normalizeUrl "stripe.com" = "https://" ++ jsTrim "stripe.com"
    ∧ normalizeUrl "http://stripe.com" = jsTrim "http://stripe.com"
    ∧ normalizeUrl "https://stripe.com" = jsTrim "https://stripe.com"
    ∧ ((⟨"https", "stripe.com"⟩ : UrlParts).scheme = "http" ∨
       (⟨"https", "stripe.com"⟩ : UrlParts).scheme = "https") :=
  ⟨(c7_normalizeUrl "stripe.com").1 (by decide),
   (c7_normalizeUrl "http://stripe.com").2.1 (by decide),
   (c7_normalizeUrl "https://stripe.com").2.2.1 (by decide),
   (c7_normalizeUrl "stripe.com").2.2.2 ⟨"https", "stripe.com"⟩ rfl⟩

theorem probeLoop_cons_true (w : World) (pu : UrlParts) (bd : String)
    (p : String) (ps : List String) (h : pathAccepts w pu bd p = true) :
    probeLoop w pu bd (p :: ps) = (pageOfPath w pu p, [mkUrl pu p]) := by
  unfold pathAccepts at h
  cases hw : w (mkUrl pu p) with
  | none => rw [hw] at h; exact absurd h (by simp)
  | some res =>
    rw [hw] at h
    have h2 : (res.ok &&
        (match parseUrl res.url with
         | none => false
         | some fu => (stripWww fu.host == bd) || (detectAtsFromUrl res.url).isSome)) =
        true := h
    cases hok : res.ok with
    | false => rw [hok] at h2; exact absurd h2 (by simp)
    | true =>
      rw [hok, Bool.true_and] at h2
      cases hpu : parseUrl res.url with
      | none => rw [hpu] at h2; exact absurd h2 (by simp)
      | some fu =>
        rw [hpu] at h2
        have hcond : stripWww fu.host = bd ∨ (detectAtsFromUrl res.url).isSome = true := by
          rcases Bool.or_eq_true_iff.mp h2 with h1 | h1
          · exact Or.inl (beq_iff_eq.mp h1)
          · exact Or.inr h1
        simp only [probeLoop, hw, hok, hpu, if_pos hcond, if_pos rfl]
        rw [pageOfPath, hw]
        rfl

theorem probeLoop_cons_false (w : World) (pu : UrlParts) (bd : String)
    (p : String) (ps : List String) (h : pathAccepts w pu bd p = false) :
    probeLoop w pu bd (p :: ps) =
      ((probeLoop w pu bd ps).1, mkUrl pu p :: (probeLoop w pu bd ps).2) := by
  unfold pathAccepts at h
  cases hw : w (mkUrl pu p) with
  | none => simp [probeLoop, hw]
  | some res =>
    rw [hw] at h
    have h2 : (res.ok &&
        (match parseUrl res.url with
         | none => false
         | some fu => (stripWww fu.host == bd) || (detectAtsFromUrl res.url).isSome)) =
        false := h
    cases hok : res.ok with
    | false => simp [probeLoop, hw, hok]
    | true =>
      rw [hok, Bool.true_and] at h2
      cases hpu : parseUrl res.url with
      | none => simp [probeLoop, hw, hok, hpu]
      | some fu =>
        rw [hpu] at h2
        have hcond : ¬ (stripWww fu.host = bd ∨ (detectAtsFromUrl res.url).isSome = true) := by
          simp only [Bool.or_eq_false_iff] at h2
          rintro (h1 | h1)
          · exact absurd (beq_iff_eq.mpr h1) (by simp [h2.1])
          · exact absurd h1 (by simp [h2.2])
        simp [probeLoop, hw, hok, hpu, hcond]

theorem probeLoop_fst_iff (w : World) (pu : UrlParts) (bd : String) :
    ∀ (ps : List String) (pg : Page),
      (probeLoop w pu bd ps).1 = some pg ↔
      ∃ l1 p l2, ps = l1 ++ p :: l2 ∧
        (∀ q ∈ l1, pathAccepts w pu bd q = false) ∧
        pathAccepts w pu bd p = true ∧ pageOfPath w pu p = some pg := by
  intro ps
  induction ps with
  | nil =>
    intro pg
    constructor
    · intro h
      exact absurd h (by simp [probeLoop])
    · rintro ⟨l1, p, l2, h1, -, -, -⟩
      exact absurd h1 (by simp)
  | cons p ps ih =>
    intro pg
    cases ha : pathAccepts w pu bd p with
    | true =>
      rw [probeLoop_cons_true _ _ _ _ _ ha]
      constructor
      · intro h
        exact ⟨[], p, ps, rfl, by simp, ha, h⟩
      · rintro ⟨l1, q, l2, heq, hall, hq, hpg⟩
        cases l1 with
        | nil =>
          injection heq with e1 e2
          subst e1
          exact hpg
        | cons a l1' =>
          injection heq with e1 e2
          subst e1
          have hfalse := hall p (List.mem_cons_self _ _)
          rw [ha] at hfalse
          exact absurd hfalse (by decide)
    | false =>
      rw [probeLoop_cons_false _ _ _ _ _ ha]
      constructor
      · intro h
        obtain ⟨l1, q, l2, heq, hall, hq, hpg⟩ := (ih pg).mp h
        refine ⟨p :: l1, q, l2, by rw [heq]; rfl, ?_, hq, hpg⟩
        intro r hr
        rcases List.mem_cons.mp hr with h1 | h1
        · rw [h1]; exact ha
        · exact hall r h1
      · rintro ⟨l1, q, l2, heq, hall, hq, hpg⟩
        cases l1 with
        | nil =>
          injection heq with e1 e2
          subst e1
          rw [ha] at hq
          exact absurd hq (by decide)
        | cons a l1' =>
          injection heq with e1 e2
          subst e1
          exact (ih pg).mpr
            ⟨l1', q, l2, e2, fun r hr => hall r (List.mem_cons_of_mem _ hr), hq, hpg⟩

theorem probeLoop_snd_eq (w : World) (pu : UrlParts) (bd : String) :
    ∀ ps : List String,
      (probeLoop w pu bd ps).2 =
        ((ps.takeWhile (fun p => !(pathAccepts w pu bd p))).map (mkUrl pu)) ++
        (((ps.drop (ps.takeWhile (fun p => !(pathAccepts w pu bd p))).length).take 1).map
          (mkUrl pu)) := by
  intro ps
  induction ps with
  | nil => simp [probeLoop]
  | cons p ps ih =>
    cases ha : pathAccepts w pu bd p with
    | true =>
      rw [probeLoop_cons_true _ _ _ _ _ ha]
      simp [List.takeWhile_cons, ha]
    | false =>
      rw [probeLoop_cons_false _ _ _ _ _ ha]
      simp [List.takeWhile_cons, ha, ih]

/-- C2: the candidate-path probe of `findCareersPage`.  For every
well-formed world and parseable base URL: (1) a probed path is accepted
exactly when its response completed with 2xx and either the
`www.`-stripped final hostname equals the `www.`-stripped base hostname
or the final URL matches an ATS pattern; (2) the probe's result is
exactly the page of the first accepted path in `CAREERS_PATHS` order;
(3) the fetched-URL trace covers exactly the paths up to and including
the first accepted one — nothing later is probed; (4) `findCareersPage`
returns the accepted candidate. -/
theorem c2_pathProbe (w : World) (base : String) (pu : UrlParts)
    (hparse : parseUrl base = some pu) (hw : WellFormedWorld w) :
    (∀ p, pathAccepts w pu (stripWww pu.host) p = true ↔
      ∃ res, w (mkUrl pu p) = some res ∧ res.ok = true ∧
        ((∃ fu, parseUrl res.url = some fu ∧ stripWww fu.host = stripWww pu.host) ∨
         (detectAtsFromUrl res.url).isSome = true))
    ∧ (∀ pg, (probeLoop w pu (stripWww pu.host) CAREERS_PATHS).1 = some pg ↔
        ∃ l1 p l2, CAREERS_PATHS = l1 ++ p :: l2 ∧
          (∀ q ∈ l1, pathAccepts w pu (stripWww pu.host) q = false) ∧
          pathAccepts w pu (stripWww pu.host) p = true ∧
          pageOfPath w pu p = some pg)
    ∧ ((probeLoop w pu (stripWww pu.host) CAREERS_PATHS).2 =
        ((CAREERS_PATHS.takeWhile
            (fun p => !(pathAccepts w pu (stripWww pu.host) p))).map (mkUrl pu)) ++
        (((CAREERS_PATHS.drop
            (CAREERS_PATHS.takeWhile
              (fun p => !(pathAccepts w pu (stripWww pu.host) p))).length).take 1).map
          (mkUrl pu)))
    ∧ (∀ pg, (probeLoop w pu (stripWww pu.host) CAREERS_PATHS).1 = some pg →
        findCareersPage w base = some pg) := by
  refine ⟨?_, probeLoop_fst_iff w pu _ CAREERS_PATHS,
    probeLoop_snd_eq w pu _ CAREERS_PATHS, ?_⟩
  · intro p
    cases hwu : w (mkUrl pu p) with
    | none =>
      constructor
      · intro h
        rw [pathAccepts, hwu] at h
        exact absurd h (by simp)
      · rintro ⟨res, hres, -, -⟩
        exact absurd hres (by simp)
    | some res =>
      constructor
      · intro h
        rw [pathAccepts, hwu] at h
        have h2 : (res.ok &&
            (match parseUrl res.url with
             | none => false
             | some fu =>
               (stripWww fu.host == stripWww pu.host) ||
                 (detectAtsFromUrl res.url).isSome)) = true := h
        rcases Bool.and_eq_true_iff.mp h2 with ⟨hok, hrest⟩
        refine ⟨res, rfl, hok, ?_⟩
        cases hpu : parseUrl res.url with
        | none => rw [hpu] at hrest; exact absurd hrest (by simp)
        | some fu =>
          rw [hpu] at hrest
          rcases Bool.or_eq_true_iff.mp hrest with h1 | h1
          · exact Or.inl ⟨fu, rfl, beq_iff_eq.mp h1⟩
          · exact Or.inr h1
      · rintro ⟨res', hres', hok, hcond⟩
        injection hres' with e
        subst e
        rw [pathAccepts, hwu]
        show (res.ok &&
          (match parseUrl res.url with
           | none => false
           | some fu =>
             (stripWww fu.host == stripWww pu.host) ||
               (detectAtsFromUrl res.url).isSome)) = true
        rw [hok, Bool.true_and]
        rcases hcond with ⟨fu, hpu, heq⟩ | hats
        · rw [hpu]
          show ((stripWww fu.host == stripWww pu.host) ||
            (detectAtsFromUrl res.url).isSome) = true
          rw [beq_iff_eq.mpr heq, Bool.true_or]
        · have hsome := hw _ _ hwu
          obtain ⟨fu, hpu⟩ := Option.isSome_iff_exists.mp hsome
          rw [hpu]
          show ((stripWww fu.host == stripWww pu.host) ||
            (detectAtsFromUrl res.url).isSome) = true
          rw [hats, Bool.or_true]
  · intro pg h
    simp only [findCareersPage, hparse, h]

/-- C2 witness: the theorem applied to the concrete world `w1` — the
first path `/careers` is accepted (2xx, same hostname) and
`findCareersPage` returns exactly that candidate. -/
theorem c2_pathProbe_witness :
    findCareersPage w1 "https://acme.com" =
      some ⟨"https://acme.com/careers", careersHtml1⟩ :=
  (c2_pathProbe w1 "https://acme.com" ⟨"https", "acme.com"⟩ rfl
    (by
      intro u r h
      unfold w1 at h
      split at h
      · injection h with e; rw [← e]; rfl
      · split at h
        · injection h with e; rw [← e]; rfl
        · split at h
          · injection h with e; rw [← e]; rfl
          · exact absurd h (by simp))).2.2.2
    ⟨"https://acme.com/careers", careersHtml1⟩ rfl

theorem tierALoop_skip_unresolved (w : World) (pu : UrlParts) (l : String)
    (ls : List String) (hr : resolveUrl pu l = none) :
    tierALoop w pu (l :: ls) = tierALoop w pu ls := by
  simp [tierALoop, hr]

theorem tierALoop_first_throw (w : World) (pu : UrlParts) (l : String)
    (ls : List String) (fu : String) (hr : resolveUrl pu l = some fu)
    (hf : w fu = none) :
    tierALoop w pu (l :: ls) = (some ⟨fu, Html.empty⟩, [fu]) := by
  simp [tierALoop, hr, hf]

theorem tierALoop_success (w : World) (pu : UrlParts) (l : String)
    (ls : List String) (fu : String) (res : FetchOutcome)
    (hr : resolveUrl pu l = some fu) (hf : w fu = some res)
    (hok : res.ok = true) :
    tierALoop w pu (l :: ls) = (some ⟨res.url, res.body⟩, [fu]) := by
  simp [tierALoop, hr, hf, hok]

theorem tierALoop_skip_notok (w : World) (pu : UrlParts) (l : String)
    (ls : List String) (fu : String) (res : FetchOutcome)
    (hr : resolveUrl pu l = some fu) (hf : w fu = some res)
    (hok : res.ok = false) :
    tierALoop w pu (l :: ls) =
      ((tierALoop w pu ls).1, fu :: (tierALoop w pu ls).2) := by
  simp [tierALoop, hr, hf, hok]

theorem tierALoop_snd_len (w : World) (pu : UrlParts) :
    ∀ ls : List String, (tierALoop w pu ls).2.length ≤ ls.length := by
  intro ls
  induction ls with
  | nil => simp [tierALoop]
  | cons l ls ih =>
    cases hr : resolveUrl pu l with
    | none =>
      rw [tierALoop_skip_unresolved _ _ _ _ hr]
      exact Nat.le_succ_of_le ih
    | some fu =>
      cases hf : w fu with
      | none =>
        rw [tierALoop_first_throw _ _ _ _ _ hr hf]
        simp
      | some res =>
        cases hok : res.ok with
        | true =>
          rw [tierALoop_success _ _ _ _ _ _ hr hf hok]
          simp
        | false =>
          rw [tierALoop_skip_notok _ _ _ _ _ _ hr hf hok]
          simpa using ih

theorem tierALoop_first_success (w : World) (pu : UrlParts) :
    ∀ (l1 : List String) (l : String) (rest : List String) (fu : String)
      (res : FetchOutcome),
      (∀ q ∈ l1, TierASkips w pu q) → resolveUrl pu l = some fu →
      w fu = some res → res.ok = true →
      (tierALoop w pu (l1 ++ l :: rest)).1 = some ⟨res.url, res.body⟩ := by
  intro l1
  induction l1 with
  | nil =>
    intro l rest fu res _ hr hf hok
    rw [List.nil_append, tierALoop_success _ _ _ _ _ _ hr hf hok]
  | cons q l1' ih =>
    intro l rest fu res hskips hr hf hok
    rcases hskips q (List.mem_cons_self _ _) with hq | ⟨fu', res', hq1, hq2, hq3⟩
    · rw [List.cons_append, tierALoop_skip_unresolved _ _ _ _ hq]
      exact ih l rest fu res (fun r hr' => hskips r (List.mem_cons_of_mem _ hr')) hr hf hok
    · rw [List.cons_append, tierALoop_skip_notok _ _ _ _ _ _ hq1 hq2 hq3]
      exact ih l rest fu res (fun r hr' => hskips r (List.mem_cons_of_mem _ hr')) hr hf hok

/-- C3: tier A of the homepage link mining.  (1) At most the first three
ATS-matching anchor/iframe links are ever fetched; (2) when every
earlier candidate was skipped (unresolvable, or fetched with a non-2xx
response), the first candidate that resolves and responds 2xx is
returned at once, with no same-domain condition anywhere; (3) when the
very first candidate resolves but its fetch throws, that candidate is
returned immediately with empty HTML; and (4) inside `findCareersPage`
the accepted tier-A candidate is returned as the careers page. -/
theorem c3_tierA :
    (∀ (w : World) (pu : UrlParts) (dom : List Node),
      (tierALoop w pu ((tierAtsLinks dom).take 3)).2.length ≤ 3)
    ∧ (∀ (w : World) (pu : UrlParts) (l1 : List String) (l : String)
        (rest : List String) (fu : String) (res : FetchOutcome),
        (∀ q ∈ l1, TierASkips w pu q) → resolveUrl pu l = some fu →
        w fu = some res → res.ok = true →
        (tierALoop w pu (l1 ++ l :: rest)).1 = some ⟨res.url, res.body⟩)
    ∧ (∀ (w : World) (pu : UrlParts) (l : String) (rest : List String)
        (fu : String),
        resolveUrl pu l = some fu → w fu = none →
        tierALoop w pu (l :: rest) = (some ⟨fu, Html.empty⟩, [fu]))
    ∧ (∀ (w : World) (base : String) (pu : UrlParts) (hres : FetchOutcome)
        (pg : Page),
        parseUrl base = some pu →
        (probeLoop w pu (stripWww pu.host) CAREERS_PATHS).1 = none →
        w base = some hres → hres.ok = true →
        (tierALoop w pu ((tierAtsLinks hres.body.dom).take 3)).1 = some pg →
        findCareersPage w base = some pg) := by
  refine ⟨?_, ?_, ?_, ?_⟩
  · intro w pu dom
    have h1 := tierALoop_snd_len w pu ((tierAtsLinks dom).take 3)
    have h2 : ((tierAtsLinks dom).take 3).length ≤ 3 := by
      rw [List.length_take]
      omega
    omega
  · exact fun w pu => tierALoop_first_success w pu
  · exact fun w pu l rest fu hr hf => tierALoop_first_throw w pu l rest fu hr hf
  · intro w base pu hres pg hparse hprobe hhome hok h
    simp [findCareersPage, hparse, hprobe, hhome, hok, h]

/-- C3 witness: the theorem's throw clause applied to the all-failing
world (the first ATS link's fetch throws and it is returned with empty
HTML), and its success clause applied to `w1` (the first link responds
2xx and is returned with no same-domain check). -/
theorem c3_tierA_witness :
    tierALoop wNone ⟨"https", "acme.com"⟩ ["https://boards.greenhouse.io/acme"] =
      (some ⟨"https://boards.greenhouse.io/acme", Html.empty⟩,
       ["https://boards.greenhouse.io/acme"]) ∧
    (tierALoop w1 ⟨"https", "acme.com"⟩
        ([] ++ "https://boards.greenhouse.io/acme" :: [])).1 =
      some ⟨"https://boards.greenhouse.io/acme", ghBoardHtml1⟩ :=
  ⟨c3_tierA.2.2.1 wNone ⟨"https", "acme.com"⟩ "https://boards.greenhouse.io/acme"
     [] "https://boards.greenhouse.io/acme" rfl rfl,
   c3_tierA.2.1 w1 ⟨"https", "acme.com"⟩ [] "https://boards.greenhouse.io/acme"
     [] "https://boards.greenhouse.io/acme"
     ⟨true, "https://boards.greenhouse.io/acme", ghBoardHtml1, none⟩
     (fun _ hq => nomatch hq) rfl rfl rfl⟩

/-- C10: a concrete request where the located careers page matches no
ATS pattern by URL, its HTML links to an ATS through the relative href
`/portal/greenhouse.io/acme`, and fetching that link throws — the
returned `careersUrl` is exactly that raw attribute value (the sole
mined outbound ATS link), a relative reference that the URL parser
cannot even parse, not a resolved absolute post-redirect URL. -/
theorem c10_raw_relative_careersUrl :
    (runPost w10 (.urlStr "acme.com")).resp =
      .ok ⟨"Acme", "https://acme.com", "Greenhouse", none,
        buildLinkedInSearchUrl "Acme", some "/portal/greenhouse.io/acme"⟩
    ∧ externalAtsLinks c10Html.dom = ["/portal/greenhouse.io/acme"]
    ∧ parseUrl "/portal/greenhouse.io/acme" = none :=
  ⟨rfl, rfl, rfl⟩
